/-
Verification of the transform stage of the portfolio ETL pipeline
(src/portfolio/etl/pipeline.py, class ProjectETLPipeline).

The Python code is shallowly embedded: each private helper of the class is
translated to an executable Lean definition of the same (camel-cased) name.
Strings are processed as `List Char` (Python operates on sequences of code
points); character classes (`\w`, `\s`, `str.lower`, `str.strip`) are
modelled at ASCII precision, which covers every string the spec and the
claims mention.  Machine floats appear only in dead or claim-irrelevant
positions and are modelled as exact rationals.  Fallible code (Python
`KeyError` propagation) is modelled with `Except String`.
-/
import Mathlib

/-! ### Character helpers (Python `str.lower`, `\s`, `\w` at ASCII precision) -/

/-- Python `str.lower`, modelled at ASCII precision: uppercase A-Z is mapped
to a-z, every other character is unchanged. -/
def pyLower (c : Char) : Char :=
  if 65 ≤ c.toNat ∧ c.toNat ≤ 90 then Char.ofNat (c.toNat + 32) else c

/-- Whitespace as matched by Python `\s` / stripped by `str.strip`,
at ASCII precision. -/
def isPySpace (c : Char) : Bool :=
  c = ' ' || c = '\t' || c = '\n' || c = '\r' || c = '\x0b' || c = '\x0c'

/-- A word character as matched by Python `\w`, at ASCII precision:
a letter, a digit or an underscore. -/
def isWordChar (c : Char) : Bool :=
  c.isAlphanum || c = '_'

/-- A character of the class `[\s_-]` collapsed by the second regex of
`_generate_slug`. -/
def isCollapseChar (c : Char) : Bool :=
  isPySpace c || c = '_' || c = '-'

/-- A character kept by the first regex of `_generate_slug`
(`re.sub(r'[^\w\s-]', '', slug)` removes the complement). -/
def isSlugKept (c : Char) : Bool :=
  isWordChar c || isPySpace c || c = '-'

/-! ### List-level string operations -/

/-- Python `str.strip()` from the left: drop leading whitespace. -/
def dropLeadingSpace (l : List Char) : List Char :=
  l.dropWhile isPySpace

/-- Python `str.strip()`: drop leading and trailing whitespace. -/
def pyStrip (l : List Char) : List Char :=
  ((dropLeadingSpace l).reverse.dropWhile isPySpace).reverse

/-- Worker for `re.sub(r'[\s_-]+', '-', slug)`: replaces each maximal run of
collapsible characters with a single hyphen.  The boolean records whether the
previous character belonged to a run. -/
def collapseAux : Bool → List Char → List Char
  | _, [] => []
  | inRun, c :: rest =>
    if isCollapseChar c then
      if inRun then collapseAux true rest
      else '-' :: collapseAux true rest
    else c :: collapseAux false rest

/-- `re.sub(r'[\s_-]+', '-', slug)`. -/
def collapseRuns (l : List Char) : List Char :=
  collapseAux false l

/-- Python `str.strip('-')`: drop leading and trailing hyphens. -/
def stripHyphens (l : List Char) : List Char :=
  ((l.dropWhile (· = '-')).reverse.dropWhile (· = '-')).reverse

/-- `_generate_slug`, on the character list: lower-case, strip whitespace,
delete characters outside `[\w\s-]`, collapse runs of `[\s_-]` to a single
hyphen, strip hyphens at both ends. -/
def slugChars (l : List Char) : List Char :=
  stripHyphens (collapseRuns ((pyStrip (l.map pyLower)).filter isSlugKept))

/-- `_generate_slug(title)`. -/
def generateSlug (title : String) : String :=
  ⟨slugChars title.data⟩

/-- Python `description.split('. ')`: split on the literal two-character
separator, scanning left to right; `''.split('. ') == ['']`. -/
def splitDotSpaceAux : List Char → List Char → List (List Char)
  | acc, '.' :: ' ' :: rest => acc.reverse :: splitDotSpaceAux [] rest
  | acc, c :: rest => splitDotSpaceAux (c :: acc) rest
  | acc, [] => [acc.reverse]

/-- Python `s.split('. ')` on a character list. -/
def splitDotSpace (l : List Char) : List (List Char) :=
  splitDotSpaceAux [] l

/-- Python `sep.join(parts)` on character lists. -/
def joinSep (sep : List Char) : List (List Char) → List Char
  | [] => []
  | [x] => x
  | x :: xs => x ++ sep ++ joinSep sep xs

/-- `_format_description(description)`: empty input is returned unchanged;
otherwise split on `'. '`; with at least two parts, rejoin all but the last
with `'. '`, append `'.\n\n'`, then the last part, then `'.'`. -/
def formatDescription (description : String) : String :=
  if description.data.isEmpty then "" else
  let sentences := splitDotSpace description.data
  if sentences.length > 1 then
    ⟨joinSep ('.' :: ' ' :: []) sentences.dropLast
      ++ ('.' :: '\n' :: '\n' :: []) ++ sentences.getLastD [] ++ ['.']⟩
  else description

/-! ### Dates: `datetime.fromisoformat`, subtraction, `timedelta.days`

`datetime.fromisoformat` is modelled on the common ISO-8601 subset the
repository's data uses: `YYYY-MM-DD`, optionally followed by a `'T'` or
`' '` separator and `HH:MM[:SS[.ffffff]]`, optionally followed by a UTC
offset `±HH:MM`.  A parsed datetime is reduced to its count of microseconds
since 1970-01-01 as read naively, plus the offset (present exactly when the
string carried one, i.e. when the Python object is timezone-aware). -/

/-- A parsed Python `datetime`: naive microseconds since the epoch and, for
aware datetimes, the UTC offset in minutes. -/
structure PyDateTime where
  naiveMicros : Int
  offsetMinutes : Option Int
  deriving DecidableEq, Repr

/-- Gregorian leap year. -/
def isLeapYear (y : Nat) : Bool :=
  (y % 4 == 0 && y % 100 != 0) || y % 400 == 0

/-- Number of days in a month (1-12) of a year. -/
def daysInMonth (y m : Nat) : Nat :=
  if m = 2 then (if isLeapYear y then 29 else 28)
  else if m = 4 || m = 6 || m = 9 || m = 11 then 30
  else 31

/-- Days from 1970-01-01 to year `y`, month `m`, day `d` (proleptic
Gregorian; the standard civil-from-days formula). -/
def daysFromCivil (y m d : Nat) : Int :=
  let yi : Int := if m ≤ 2 then (y : Int) - 1 else (y : Int)
  let era : Int := Int.fdiv yi 400
  let yoe : Int := yi - era * 400
  let mp : Int := if m > 2 then (m : Int) - 3 else (m : Int) + 9
  let doy : Int := Int.fdiv (153 * mp + 2) 5 + (d : Int) - 1
  let doe : Int := yoe * 365 + Int.fdiv yoe 4 - Int.fdiv yoe 100 + doy
  era * 146097 + doe - 719468

/-- Read exactly `n` decimal digits, returning their value and the rest. -/
def readDigits : Nat → Nat → List Char → Option (Nat × List Char)
  | 0, acc, l => some (acc, l)
  | n + 1, acc, c :: l =>
    if c.isDigit then readDigits n (acc * 10 + (c.toNat - 48)) l else none
  | _ + 1, _, [] => none

/-- Read a `:`-prefixed two-digit field. -/
def readColonField (l : List Char) : Option (Nat × List Char) :=
  match l with
  | ':' :: rest => readDigits 2 0 rest
  | _ => none

/-- Read a fractional-seconds part `.d{1,6}` as microseconds. -/
def readFraction (l : List Char) : Option (Nat × List Char) :=
  match l with
  | '.' :: rest =>
    let digits := rest.takeWhile Char.isDigit
    if digits.length = 0 || digits.length > 6 then none
    else
      match readDigits digits.length 0 rest with
      | some (v, rest') => some (v * 10 ^ (6 - digits.length), rest')
      | none => none
  | _ => none

/-- Read the `±HH:MM` UTC offset, returning minutes. -/
def readOffset (l : List Char) : Option Int :=
  match l with
  | sign :: rest =>
    if sign = '+' || sign = '-' then
      match readDigits 2 0 rest with
      | some (oh, rest₁) =>
        match readColonField rest₁ with
        | some (om, []) =>
          if oh ≤ 23 && om ≤ 59 then
            let v : Int := (oh : Int) * 60 + (om : Int)
            some (if sign = '-' then -v else v)
          else none
        | _ => none
      | none => none
    else none
  | [] => none

/-- Read `HH:MM[:SS[.ffffff]]` followed by an optional offset, returning
microseconds within the day and the offset. -/
def readTime (l : List Char) : Option (Int × Option Int) :=
  match readDigits 2 0 l with
  | some (hh, rest₁) =>
    match readColonField rest₁ with
    | some (mm, rest₂) =>
      let (ss, us, rest₃) :=
        match readColonField rest₂ with
        | some (s, r) =>
          match readFraction r with
          | some (f, r') => (s, f, r')
          | none => (s, 0, r)
        | none => (0, 0, rest₂)
      if hh ≤ 23 && mm ≤ 59 && ss ≤ 59 then
        let micros : Int :=
          ((hh : Int) * 3600 + (mm : Int) * 60 + (ss : Int)) * 1000000 + (us : Int)
        match rest₃ with
        | [] => some (micros, none)
        | _ =>
          match readOffset rest₃ with
          | some off => some (micros, some off)
          | none => none
      else none
    | none => none
  | none => none

/-- `datetime.fromisoformat`, on the modelled subset. -/
def fromisoformat (l : List Char) : Option PyDateTime :=
  match readDigits 4 0 l with
  | some (y, '-' :: rest₁) =>
    match readDigits 2 0 rest₁ with
    | some (m, '-' :: rest₂) =>
      match readDigits 2 0 rest₂ with
      | some (d, rest₃) =>
        if 1 ≤ m && m ≤ 12 && 1 ≤ d && d ≤ daysInMonth y m then
          let dayMicros : Int := daysFromCivil y m d * 86400000000
          match rest₃ with
          | [] => some ⟨dayMicros, none⟩
          | sep :: rest₄ =>
            if sep = 'T' || sep = ' ' then
              match readTime rest₄ with
              | some (tm, off) => some ⟨dayMicros + tm, off⟩
              | none => none
            else none
        else none
      | _ => none
    | _ => none
  | _ => none

/-- Python `s.replace('Z', '+00:00')`: every occurrence of `'Z'` is
replaced. -/
def pyReplaceZ (l : List Char) : List Char :=
  (l.map (fun c => if c = 'Z' then ('+' :: '0' :: '0' :: ':' :: '0' :: '0' :: []) else [c])).flatten

/-- Subtraction of Python datetimes.  Both naive: difference of naive
readings.  Both aware: difference of UTC instants.  Mixed: Python raises
`TypeError`, modelled as `none`. -/
def pySub (a b : PyDateTime) : Option Int :=
  match a.offsetMinutes, b.offsetMinutes with
  | none, none => some (a.naiveMicros - b.naiveMicros)
  | some oa, some ob =>
    some ((a.naiveMicros - oa * 60000000) - (b.naiveMicros - ob * 60000000))
  | _, _ => none

/-- The UTC instant of a parsed datetime (a naive datetime is read as
already being in UTC). -/
def utcMicros (dt : PyDateTime) : Int :=
  dt.naiveMicros - dt.offsetMinutes.getD 0 * 60000000

/-- `_calculate_duration(start_date, end_date)`: parse both strings after
replacing `'Z'` with `'+00:00'`, subtract, take `timedelta.days` (floor
division of the microsecond difference by one day).  Any failure inside the
`try` block (unparsable string, aware/naive subtraction) yields `0`. -/
def calculateDuration (startDate endDate : String) : Int :=
  match fromisoformat (pyReplaceZ startDate.data),
        fromisoformat (pyReplaceZ endDate.data) with
  | some s, some e =>
    match pySub e s with
    | some diff => Int.fdiv diff 86400000000
    | none => 0
  | _, _ => 0

/-- `_is_recent_project(project)`, with the run time (`datetime.now()`,
a naive instant in microseconds) taken as a parameter.  The effective date
is `project.get('endDate', project.get('startDate', ''))`; an empty string
is falsy and gives `False`; a parse failure gives `False`; comparing an
aware parsed date with the naive `six_months_ago` raises `TypeError`,
caught by the bare `except` and giving `False`. -/
def isRecentProject (now : Int) (endDate startDate : Option String) : Bool :=
  let effective := match endDate with
    | some e => e
    | none => startDate.getD ""
  if effective.data.isEmpty then false
  else
    match fromisoformat (pyReplaceZ effective.data) with
    | none => false
    | some dt =>
      match dt.offsetMinutes with
      | none => decide (dt.naiveMicros > now - 180 * 86400000000)
      | some _ => false

/-! ### JSON values and `_generate_content_hash`

`json.dumps(project, sort_keys=True)` serializes a key-value tree with the
keys of every object sorted (Python compares strings by code point).  The
tree type mirrors what `json` accepts from `json.load`: strings, integers,
booleans, null, arrays and objects.  Python dict keys are unique, so an
object's serialization is determined by rendering each entry and emitting
them in sorted-key order. -/

mutual
/-- A JSON value as handled by `json.dumps`. -/
inductive JVal where
  | str (s : String)
  | num (n : Int)
  | bool (b : Bool)
  | null
  | arr (xs : JArr)
  | obj (kvs : JObj)
/-- A JSON array. -/
inductive JArr where
  | nil
  | cons (v : JVal) (rest : JArr)
/-- A JSON object: a sequence of key-value entries in insertion order. -/
inductive JObj where
  | nil
  | cons (k : String) (v : JVal) (rest : JObj)
end

/-- The keys of an object, in insertion order. -/
def JObj.keys : JObj → List String
  | .nil => []
  | .cons k _ rest => k :: rest.keys

/-- Dictionary lookup on an object (first matching key). -/
def JObj.find (k : String) : JObj → Option JVal
  | .nil => none
  | .cons k' v rest => if k' = k then some v else JObj.find k rest

/-- The elements of an array as a list. -/
def JArr.toList : JArr → List JVal
  | .nil => []
  | .cons v rest => v :: rest.toList

/-! Python compares strings by code point; this is the order `sorted` and
`sort_keys=True` use. -/

/-- Code-point lexicographic string comparison (Python `<=` on `str`),
as a boolean on character lists. -/
def charListLe : List Char → List Char → Bool
  | [], _ => true
  | _ :: _, [] => false
  | a :: as, b :: bs =>
    if a.toNat < b.toNat then true
    else if b.toNat < a.toNat then false
    else charListLe as bs

/-- Python string order, as a relation on `String`. -/
def keyLe (a b : String) : Prop := charListLe a.data b.data = true

instance : DecidableRel keyLe := fun a b =>
  inferInstanceAs (Decidable (charListLe a.data b.data = true))

/-- The sorted key sequence used by `json.dumps(..., sort_keys=True)`. -/
def sortKeys (ks : List String) : List String :=
  List.insertionSort keyLe ks

/-- Hex digit (lowercase). -/
def hexDigit (n : Nat) : Char :=
  if n < 10 then Char.ofNat (48 + n) else Char.ofNat (87 + n)

/-- A `\uXXXX` escape. -/
def uEscape (n : Nat) : List Char :=
  '\\' :: 'u' :: hexDigit (n / 4096 % 16) :: hexDigit (n / 256 % 16)
    :: hexDigit (n / 16 % 16) :: hexDigit (n % 16) :: []

/-- One character of a JSON string as emitted by `json.dumps` (default
`ensure_ascii=True`; code points beyond the basic multilingual plane are
approximated by a single escape). -/
def encodeChar (c : Char) : List Char :=
  if c = '"' then '\\' :: '"' :: []
  else if c = '\\' then '\\' :: '\\' :: []
  else if c = '\n' then '\\' :: 'n' :: []
  else if c = '\t' then '\\' :: 't' :: []
  else if c = '\r' then '\\' :: 'r' :: []
  else if c = '\x08' then '\\' :: 'b' :: []
  else if c = '\x0c' then '\\' :: 'f' :: []
  else if c.toNat < 32 then uEscape c.toNat
  else if c.toNat < 127 then [c]
  else uEscape (c.toNat % 65536)

/-- A JSON string literal as emitted by `json.dumps`. -/
def encodeStr (s : String) : List Char :=
  '"' :: (s.data.map encodeChar).flatten ++ ['"']

/-- An integer as emitted by `json.dumps`. -/
def intChars (n : Int) : List Char :=
  if n < 0 then '-' :: Nat.toDigits 10 n.natAbs else Nat.toDigits 10 n.toNat

/-- Lookup among rendered object entries (first matching key; total, with
`[]` for a key that is absent, which cannot happen for the keys of the
object itself). -/
def lookupRendered (k : String) : List (String × List Char) → List Char
  | [] => []
  | (k', s) :: rest => if k' = k then s else lookupRendered k rest

/-- One rendered `"key": value` entry of an object. -/
def renderEntry (k : String) (rendered : List (String × List Char)) : List Char :=
  encodeStr k ++ (':' :: ' ' :: []) ++ lookupRendered k rendered

mutual
/-- `json.dumps(value, sort_keys=True)` with the default separators
`', '` and `': '`: object entries are rendered and emitted in sorted-key
order (keys are unique in a Python dict, so sorting the items by key is
sorting the keys and looking each one up). -/
def dumpsV : JVal → List Char
  | .str s => encodeStr s
  | .num n => intChars n
  | .bool b => if b then "true".data else "false".data
  | .null => "null".data
  | .arr xs => '[' :: joinSep (',' :: ' ' :: []) (dumpsArr xs) ++ [']']
  | .obj kvs =>
    '\x7b' :: joinSep (',' :: ' ' :: [])
        ((sortKeys ((dumpsObj kvs).map Prod.fst)).map (fun k => renderEntry k (dumpsObj kvs)))
      ++ ['\x7d']
/-- Rendered elements of an array, in order. -/
def dumpsArr : JArr → List (List Char)
  | .nil => []
  | .cons v rest => dumpsV v :: dumpsArr rest
/-- Rendered entries of an object, in insertion order. -/
def dumpsObj : JObj → List (String × List Char)
  | .nil => []
  | .cons k v rest => (k, dumpsV v) :: dumpsObj rest
end

/-- Modelled from the spec: `hashlib.md5(content.encode()).hexdigest()` is a
deterministic digest of the serialized text, hex-encoded.  The spec states
the algorithm choice is free ("fast non-cryptographic or cryptographic
digest") and only change detection relies on it, so MD5's internals are
modelled by a fixed executable digest of the character sequence. -/
def md5Hex (l : List Char) : String :=
  ⟨Nat.toDigits 16 (l.foldl (fun h c => (h * 131 + c.toNat + 7) % (2 ^ 64)) 5381)⟩

/-- `_generate_content_hash(project)`. -/
def generateContentHash (v : JVal) : String :=
  md5Hex (dumpsV v)

/-- Two JSON values that are equal as key-value trees: identical leaves,
arrays equal element by element, objects with the same (duplicate-free) key
sets mapping each key to equivalent values, irrespective of entry order. -/
inductive JEquiv : JVal → JVal → Prop where
  | refl (v : JVal) : JEquiv v v
  | arr (xs ys : JArr) :
      xs.toList.length = ys.toList.length →
      (∀ x y, (x, y) ∈ xs.toList.zip ys.toList → JEquiv x y) →
      JEquiv (.arr xs) (.arr ys)
  | obj (kvs₁ kvs₂ : JObj) :
      kvs₁.keys.Nodup → kvs₂.keys.Nodup →
      kvs₁.keys.Perm kvs₂.keys →
      (∀ k v₁ v₂, kvs₁.find k = some v₁ → kvs₂.find k = some v₂ → JEquiv v₁ v₂) →
      JEquiv (.obj kvs₁) (.obj kvs₂)

/-! ### Project records and `_enrich_project_data`

A `ProjectRecord` is modelled as a structure of optional fields: `none`
means the key is absent from the JSON object, matching the spec's data
model (`id`, `title`, optional `slug`, `shortDescription`, `category`,
`technologies`, `status`, `startDate`/`endDate`, `featured`, `thumbnail`,
`githubUrl`, nested `content`, `images`).  `dict.get(k, default)` becomes
`Option.getD`; a bare `project[k]` on an absent key is a `KeyError`,
modelled with `Except.error`. -/

/-- The nested `content` mapping. -/
structure Content where
  overview : Option String
  challenge : Option String
  solution : Option String
  deriving DecidableEq, Repr

/-- An input project record. -/
structure Project where
  id : Option Int := none
  title : Option String := none
  slug : Option String := none
  shortDescription : Option String := none
  category : Option String := none
  technologies : Option (List String) := none
  status : Option String := none
  startDate : Option String := none
  endDate : Option String := none
  featured : Option Bool := none
  thumbnail : Option String := none
  githubUrl : Option String := none
  content : Option Content := none
  images : Option (List String) := none
  deriving DecidableEq, Repr

/-- Append a string-valued entry to an object when the field is present. -/
def optStrEntry (k : String) (o : Option String) (rest : JObj) : JObj :=
  match o with
  | some s => .cons k (.str s) rest
  | none => rest

/-- A JSON array of strings. -/
def strJArr (l : List String) : JArr :=
  match l with
  | [] => .nil
  | s :: rest => .cons (.str s) (strJArr rest)

/-- Append a string-list-valued entry when the field is present. -/
def optListEntry (k : String) (o : Option (List String)) (rest : JObj) : JObj :=
  match o with
  | some l => .cons k (.arr (strJArr l)) rest
  | none => rest

/-- The `content` mapping as a JSON object. -/
def Content.toJVal (c : Content) : JVal :=
  .obj (optStrEntry "overview" c.overview
    (optStrEntry "challenge" c.challenge
      (optStrEntry "solution" c.solution .nil)))

/-- Append an integer-valued entry when the field is present. -/
def optIntEntry (k : String) (o : Option Int) (rest : JObj) : JObj :=
  match o with
  | some n => .cons k (.num n) rest
  | none => rest

/-- Append a boolean-valued entry when the field is present. -/
def optBoolEntry (k : String) (o : Option Bool) (rest : JObj) : JObj :=
  match o with
  | some b => .cons k (.bool b) rest
  | none => rest

/-- Append the nested `content` entry when the field is present. -/
def optContentEntry (k : String) (o : Option Content) (rest : JObj) : JObj :=
  match o with
  | some c => .cons k c.toJVal rest
  | none => rest

/-- The project record as the JSON tree passed to
`_generate_content_hash` (present keys only; entry order is the record's
insertion order, which `sort_keys=True` makes irrelevant). -/
def Project.toJVal (p : Project) : JVal :=
  .obj
    (optIntEntry "id" p.id
      (optStrEntry "title" p.title
        (optStrEntry "slug" p.slug
          (optStrEntry "shortDescription" p.shortDescription
            (optStrEntry "category" p.category
              (optListEntry "technologies" p.technologies
                (optStrEntry "status" p.status
                  (optStrEntry "startDate" p.startDate
                    (optStrEntry "endDate" p.endDate
                      (optBoolEntry "featured" p.featured
                        (optStrEntry "thumbnail" p.thumbnail
                          (optStrEntry "githubUrl" p.githubUrl
                            (optContentEntry "content" p.content
                              (optListEntry "images" p.images .nil))))))))))))))

/-- Python truthiness of an optional string field (`_get_nested_value`
returns `None` for an absent or falsy value). -/
def truthyStr (o : Option String) : Bool :=
  match o with
  | some s => !s.data.isEmpty
  | none => false

/-- Python truthiness of an optional list field. -/
def truthyList (o : Option (List String)) : Bool :=
  match o with
  | some l => !l.isEmpty
  | none => false

/-- Truthiness of a dotted `content.*` path: absent the moment `content`
is missing, else the truthiness of the nested field. -/
def truthyContent (p : Project) (f : Content → Option String) : Bool :=
  match p.content with
  | some c => truthyStr (f c)
  | none => false

/-- `_calculate_data_quality_score(project)`: 9 weighted presence checks,
each added when the (possibly nested) field is truthy, capped at 100. -/
def calculateDataQualityScore (p : Project) : Nat :=
  let score :=
    (if truthyStr p.title then 10 else 0) +
    (if truthyStr p.shortDescription then 15 else 0) +
    (if truthyList p.technologies then 10 else 0) +
    (if truthyContent p Content.overview then 20 else 0) +
    (if truthyContent p Content.challenge then 10 else 0) +
    (if truthyContent p Content.solution then 15 else 0) +
    (if truthyStr p.startDate then 5 else 0) +
    (if truthyStr p.endDate then 5 else 0) +
    (if truthyList p.images then 10 else 0)
  min score 100

/-- `project.get('content', {}).get('overview', '')`. -/
def contentOverview (p : Project) : String :=
  match p.content with
  | some c => c.overview.getD ""
  | none => ""

/-- The generated SEO metadata (`reading_time` is stored through `str(...)`
in the source, hence a string). -/
structure SeoMetadata where
  meta_description : String
  keywords : String
  reading_time : String
  deriving DecidableEq, Repr

/-- A natural number rendered by Python `str(...)`. -/
def natStr (n : Nat) : String :=
  ⟨Nat.toDigits 10 n⟩

/-- `_generate_seo_metadata(project)`: first 160 characters of the short
description, first 5 technologies joined by `', '`, and
`str(min(max(len(overview) // 200, 1), 10))`. -/
def generateSeoMetadata (p : Project) : SeoMetadata :=
  { meta_description := ⟨(p.shortDescription.getD "").data.take 160⟩
    keywords := ⟨joinSep (',' :: ' ' :: []) (((p.technologies.getD []).take 5).map String.data)⟩
    reading_time := natStr (min (max ((contentOverview p).data.length / 200) 1) 10) }

/-- An enriched project: the copied record plus the computed fields.
`duration_days` is present exactly when both date keys were present. -/
structure Enriched where
  id : Option Int
  title : Option String
  slug : String
  shortDescription : Option String
  category : Option String
  technologies : Option (List String)
  status : Option String
  startDate : Option String
  endDate : Option String
  featured : Option Bool
  thumbnail : Option String
  githubUrl : Option String
  content : Option Content
  images : Option (List String)
  duration_days : Option Int
  content_hash : String
  seo_metadata : SeoMetadata
  data_quality_score : Nat
  formatted_description : String
  deriving DecidableEq, Repr

/-- The enriched record built by `_enrich_project_data` once the slug is
settled: the copied input fields plus `duration_days` (present exactly
when both date keys are present), content hash, SEO metadata, quality
score and formatted description. -/
def enrichCore (p : Project) (slug : String) : Enriched :=
  { id := p.id
    title := p.title
    slug := slug
    shortDescription := p.shortDescription
    category := p.category
    technologies := p.technologies
    status := p.status
    startDate := p.startDate
    endDate := p.endDate
    featured := p.featured
    thumbnail := p.thumbnail
    githubUrl := p.githubUrl
    content := p.content
    images := p.images
    duration_days :=
      match p.startDate, p.endDate with
      | some s, some e => some (calculateDuration s e)
      | _, _ => none
    content_hash := generateContentHash p.toJVal
    seo_metadata := generateSeoMetadata p
    data_quality_score := calculateDataQualityScore p
    formatted_description := formatDescription (p.shortDescription.getD "") }

/-- `_enrich_project_data(project)`: keep an existing `slug` verbatim,
otherwise derive it from `project['title']` — a `KeyError` when that key
is also absent. -/
def enrichProjectData (p : Project) : Except String Enriched :=
  match p.slug with
  | some s => Except.ok (enrichCore p s)
  | none =>
    match p.title with
    | some t => Except.ok (enrichCore p (generateSlug t))
    | none => Except.error "KeyError: title"

/-! ### The analytics accumulator, `_update_analytics`,
`_generate_insights`, `transform`

Python dicts used as counters (`categories`, `technologies`,
`status_distribution`) are modelled as association lists in insertion
order: `d[k] = d.get(k, 0) + 1` increments the first matching entry or
appends a new one, exactly as a dict preserves insertion order.  Python
floats (`completion_rate`, the average duration) are modelled as exact
rationals. -/

/-- `d[k] = d.get(k, 0) + 1` on an insertion-ordered counter. -/
def incrCount (m : List (String × Nat)) (k : String) : List (String × Nat) :=
  match m with
  | [] => [(k, 1)]
  | (k', v) :: rest => if k' = k then (k', v + 1) :: rest else (k', v) :: incrCount rest k

/-- `d.get(k, 0)` on a counter. -/
def getCount (m : List (String × Nat)) (k : String) : Nat :=
  match m with
  | [] => 0
  | (k', v) :: rest => if k' = k then v else getCount rest k

/-- The summary appended to `recent_projects`. -/
structure RecentSummary where
  id : Int
  title : String
  category : String
  startDate : String
  deriving DecidableEq, Repr

/-- The summary appended to `featured_projects` (first 3 technologies). -/
structure FeaturedSummary where
  id : Int
  title : String
  category : String
  technologies : List String
  deriving DecidableEq, Repr

/-- The `insights` mapping: `most_used_technology` /
`most_common_category` are absent when the corresponding counter is empty;
`average_project_duration_days` is absent when no completed project with a
`duration_days` field is found. -/
structure Insights where
  most_used_technology : Option (String × Nat)
  most_common_category : Option (String × Nat)
  completion_rate : Rat
  average_project_duration_days : Option Rat
  deriving DecidableEq, Repr

/-- The analytics accumulator created at the start of `transform`.  The
dict literal has no `'projects'` key and no stage ever adds one; the field
`projects` models that key as an `Option` that stays `none`, so that
`analytics.get('projects', [])` in `_generate_insights` reads
`projects.getD []`.  `processing_timestamp` is the run-start instant. -/
structure Analytics where
  total_projects : Nat
  categories : List (String × Nat)
  technologies : List (String × Nat)
  status_distribution : List (String × Nat)
  recent_projects : List RecentSummary
  featured_projects : List FeaturedSummary
  processing_timestamp : Int
  data_quality_metrics : List (String × Rat)
  projects : Option (List Enriched)
  insights : Option Insights
  deriving DecidableEq, Repr

/-- The dict literal at the top of `transform`. -/
def initAnalytics (now : Int) (n : Nat) : Analytics :=
  { total_projects := n
    categories := []
    technologies := []
    status_distribution := []
    recent_projects := []
    featured_projects := []
    processing_timestamp := now
    data_quality_metrics := []
    projects := none
    insights := none }

/-- The three counter updates at the top of `_update_analytics`. -/
def updateCounts (a : Analytics) (e : Enriched) : Analytics :=
  { a with
    categories := incrCount a.categories (e.category.getD "uncategorized")
    technologies := (e.technologies.getD []).foldl incrCount a.technologies
    status_distribution := incrCount a.status_distribution (e.status.getD "unknown") }

/-- The `recent_projects` block of `_update_analytics`: `project['id']`
and `project['title']` are bare lookups and raise `KeyError` when absent
(evaluated left to right in the dict literal). -/
def updateRecent (now : Int) (a : Analytics) (e : Enriched) : Except String Analytics :=
  if isRecentProject now e.endDate e.startDate then
    match e.id, e.title with
    | some i, some t =>
      Except.ok { a with recent_projects :=
        a.recent_projects ++ [⟨i, t, e.category.getD "", e.startDate.getD ""⟩] }
    | none, _ => Except.error "KeyError: id"
    | some _, none => Except.error "KeyError: title"
  else Except.ok a

/-- The `featured_projects` block of `_update_analytics`. -/
def updateFeatured (a : Analytics) (e : Enriched) : Except String Analytics :=
  if e.featured.getD false then
    match e.id, e.title with
    | some i, some t =>
      Except.ok { a with featured_projects :=
        a.featured_projects ++ [⟨i, t, e.category.getD "", (e.technologies.getD []).take 3⟩] }
    | none, _ => Except.error "KeyError: id"
    | some _, none => Except.error "KeyError: title"
  else Except.ok a

/-- `_update_analytics(analytics, project)`. -/
def updateAnalytics (now : Int) (a : Analytics) (e : Enriched) : Except String Analytics := do
  let a ← updateRecent now (updateCounts a e) e
  updateFeatured a e

/-- Python `max(items, key=lambda x: x[1])` over a dict's items: the first
entry with the maximal count, in insertion order. -/
def maxByCount (m : List (String × Nat)) : Option (String × Nat) :=
  match m with
  | [] => none
  | x :: xs => some (xs.foldl (fun best p => if p.2 > best.2 then p else best) x)

/-- Python `round(x, 1)` on the modelled exact value: round half to even
at one decimal place (`float` rounding is modelled in exact arithmetic;
this value is only produced on a branch that is in fact unreachable, see
the insight theorems). -/
def pyRound1 (q : Rat) : Rat :=
  let x := q * 10
  let f : Int := x.floor
  let frac := x - (f : Rat)
  let r : Int :=
    if frac < 1/2 then f
    else if frac > 1/2 then f + 1
    else if f % 2 = 0 then f else f + 1
  (r : Rat) / 10

/-- `_generate_insights(analytics)`: runs on the sealed accumulator.
`completed_projects_data` filters `analytics.get('projects', [])` — a key
the accumulator never carries. -/
def generateInsights (a : Analytics) : Insights :=
  let completedData := (a.projects.getD []).filter
    (fun p => p.status == some "completed" && p.duration_days.isSome)
  { most_used_technology := maxByCount a.technologies
    most_common_category := maxByCount a.categories
    completion_rate :=
      if a.total_projects > 0 then
        (getCount a.status_distribution "completed" : Rat) / (a.total_projects : Rat) * 100
      else 0
    average_project_duration_days :=
      if completedData.isEmpty then none
      else some (pyRound1
        (((completedData.map (fun p => p.duration_days.getD 0)).sum : Int) /
          (completedData.length : Rat))) }

/-- The result of `transform`: the enriched records and the sealed
analytics. -/
structure TransformResult where
  projects : List Enriched
  analytics : Analytics
  deriving DecidableEq, Repr

/-- The per-record loop of `transform`: enrich, fold into the analytics,
collect.  Any exception aborts the whole run. -/
def transformGo (now : Int) : Analytics → List Enriched → List Project →
    Except String (List Enriched × Analytics)
  | a, acc, [] => Except.ok (acc.reverse, a)
  | a, acc, p :: ps => do
    let e ← enrichProjectData p
    let a' ← updateAnalytics now a e
    transformGo now a' (e :: acc) ps

/-- `transform(projects)`, with the run time as a parameter:
`total_projects` is `len(projects)` up front; each record is enriched and
folded; `insights` is computed once afterwards from the sealed
accumulator. -/
def transform (now : Int) (projects : List Project) : Except String TransformResult := do
  let (ts, a) ← transformGo now (initAnalytics now projects.length) [] projects
  Except.ok { projects := ts, analytics := { a with insights := some (generateInsights a) } }

/-- Whether the run aborts with an exception. -/
def runAborts {α : Type} : Except String α → Bool
  | .error _ => true
  | .ok _ => false

/-- Sum of the values of a counter mapping. -/
def countSum (m : List (String × Nat)) : Nat :=
  (m.map Prod.snd).sum

/-- The completed ten-day project used to exercise the average-duration
insight. -/
def c1Project : Project :=
  { id := some 1, title := some "Alpha", status := some "completed",
    startDate := some "2024-01-01", endDate := some "2024-01-11" }

/-- The record of the spec's enrichment scenario. -/
def c2Project : Project :=
  { id := some 1, title := some "My Cool App!",
    shortDescription := some "It works. It scales. It ships." }

/-- A fallback `TransformResult` for reading a known-successful run out of
`Except`. -/
def emptyResult : TransformResult :=
  ⟨[], initAnalytics 0 0⟩

/-! ### Claim theorems -/

/-- C2 (counterexample): on the record
`{"id":1,"title":"My Cool App!","shortDescription":"It works. It scales. It ships."}`
the enriched `formatted_description` is `"It works. It scales.\n\nIt ships.."`
— `split('. ')` leaves the period of the final sentence in place and the
code appends another one — which differs from the single-period string the
claim asserts. -/
theorem c2_scenario_counterexample :
    (enrichProjectData c2Project).toOption.map Enriched.formatted_description
        = some "It works. It scales.\n\nIt ships.."
      ∧ ("It works. It scales.\n\nIt ships.." : String)
        ≠ "It works. It scales.\n\nIt ships." := by
  constructor
  · decide
  · decide

/-- C2 (amended): the scenario record enriches to slug `"my-cool-app"`,
`formatted_description` `"It works. It scales.\n\nIt ships.."` (the final
sentence keeps its own period and gains the appended one), and
`data_quality_score` exactly 25. -/
theorem c2_scenario_amended :
    (enrichProjectData c2Project).toOption.map
        (fun e => (e.slug, e.formatted_description, e.data_quality_score))
      = some ("my-cool-app", "It works. It scales.\n\nIt ships..", 25) := by
  decide

/-- C1 (code bug): on a run whose only record is completed with
`duration_days = 10`, the transform succeeds, the sealed analytics carry
that completed project, yet the insights omit
`average_project_duration_days`: `_generate_insights` filters
`analytics.get('projects', [])`, and the accumulator never has a
`'projects'` key, so the entry is unconditionally omitted. -/
theorem c1_average_duration_unreachable :
    (transform 0 [c1Project]).toOption.map
        (fun r => (r.projects.map (fun e => (e.status, e.duration_days)),
                   r.analytics.insights.map Insights.average_project_duration_days,
                   r.analytics.projects))
      = some ([(some "completed", some 10)], some none, none) := by
  decide

/-- C6: for every record, the generated `reading_time` is the decimal
rendering of `len(content.overview) // 200` clamped to the inclusive range
`[1, 10]`; a missing or empty overview yields `"1"`. -/
theorem c6_reading_time (p : Project) (n : Nat)
    (hn : n = (contentOverview p).data.length) :
    (generateSeoMetadata p).reading_time
        = natStr (if n / 200 ≤ 1 then 1 else if 10 ≤ n / 200 then 10 else n / 200)
      ∧ (n = 0 → (generateSeoMetadata p).reading_time = natStr 1) := by
  subst hn
  constructor
  · show natStr (min (max _ 1) 10) = _
    congr 1
    split_ifs <;> omega
  · intro h
    show natStr (min (max _ 1) 10) = _
    rw [h]
    decide

/-- C6 witness: a record with no `content` has overview length 0 and
reading time `"1"`. -/
theorem c6_reading_time_witness :
    (generateSeoMetadata { title := some "A" }).reading_time = natStr 1 :=
  (c6_reading_time { title := some "A" } 0 rfl).2 rfl

/-- C10: a record that already carries a `slug` key passes its value
through enrichment verbatim, whatever string it is. -/
theorem c10_slug_passthrough (p : Project) (s : String) (h : p.slug = some s) :
    (enrichProjectData p).toOption.map Enriched.slug = some s := by
  simp [enrichProjectData, h, Except.toOption, enrichCore]

/-- C10 witness: an empty, URL-unsafe slug survives enrichment unchanged
even though the record has no title. -/
theorem c10_slug_passthrough_witness :
    (enrichProjectData { slug := some "!! NOT a slug //" }).toOption.map Enriched.slug
        = some "!! NOT a slug //"
      ∧ (enrichProjectData { slug := some "" }).toOption.map Enriched.slug = some "" :=
  ⟨c10_slug_passthrough { slug := some "!! NOT a slug //" } "!! NOT a slug //" rfl,
   c10_slug_passthrough { slug := some "" } "" rfl⟩

/-- C5 (counterexample): with `startDate = "2024-01-01T00:00:00"` and
`endDate = "2023-12-31T12:00:00"` both dates parse as naive instants, the
difference is −12 hours, whose whole-day count truncated toward zero is 0,
yet the code returns −1: `timedelta.days` floors, it does not truncate
toward zero. -/
theorem c5_duration_counterexample :
    calculateDuration "2024-01-01T00:00:00" "2023-12-31T12:00:00" = -1
      ∧ fromisoformat (pyReplaceZ "2024-01-01T00:00:00".data)
          = some ⟨19723 * 86400000000, none⟩
      ∧ fromisoformat (pyReplaceZ "2023-12-31T12:00:00".data)
          = some ⟨19722 * 86400000000 + 43200000000, none⟩
      ∧ Int.tdiv ((19722 * 86400000000 + 43200000000) - 19723 * 86400000000)
          86400000000 = 0 := by
  decide

/-- C5 (amended): when both date strings parse (after the `'Z'`
replacement) and agree on being aware or naive, `duration_days` is the
floor of the day difference (`timedelta.days` floors, so a reversed range
with a fractional day rounds down); when either string fails to parse the
result is 0 and no exception escapes; subtracting an aware from a naive
datetime (or vice versa) also degrades to 0. -/
theorem c5_duration_amended :
    (∀ (s e : String) (ds de : PyDateTime),
        fromisoformat (pyReplaceZ s.data) = some ds →
        fromisoformat (pyReplaceZ e.data) = some de →
        ds.offsetMinutes.isSome = de.offsetMinutes.isSome →
        calculateDuration s e = Int.fdiv (utcMicros de - utcMicros ds) 86400000000)
    ∧ (∀ s e : String,
        fromisoformat (pyReplaceZ s.data) = none ∨ fromisoformat (pyReplaceZ e.data) = none →
        calculateDuration s e = 0)
    ∧ (∀ (s e : String) (ds de : PyDateTime),
        fromisoformat (pyReplaceZ s.data) = some ds →
        fromisoformat (pyReplaceZ e.data) = some de →
        ds.offsetMinutes.isSome ≠ de.offsetMinutes.isSome →
        calculateDuration s e = 0) := by
  refine ⟨?_, ?_, ?_⟩
  · intro s e ds de hs he hmatch
    unfold calculateDuration
    rw [hs, he]
    cases hds : ds.offsetMinutes <;> cases hde : de.offsetMinutes <;>
      rw [hds, hde] at hmatch <;> simp at hmatch <;>
      simp [pySub, hds, hde, utcMicros]
  · intro s e h
    unfold calculateDuration
    cases h with
    | inl h => rw [h]
    | inr h =>
      rw [h]
      cases fromisoformat (pyReplaceZ s.data) <;> rfl
  · intro s e ds de hs he hmix
    unfold calculateDuration
    rw [hs, he]
    cases hds : ds.offsetMinutes <;> cases hde : de.offsetMinutes <;>
      rw [hds, hde] at hmix <;> simp at hmix <;> simp [pySub, hds, hde]

/-- C5 witness: two aware dates 10.25 days apart give 10; a reversed naive
pair a whole day apart gives −1; an unparsable start gives 0. -/
theorem c5_duration_witness :
    calculateDuration "2024-01-01T00:00:00Z" "2024-01-11T06:00:00Z" = 10
      ∧ calculateDuration "not a date" "2024-01-11" = 0 := by
  constructor
  · have h := c5_duration_amended.1 "2024-01-01T00:00:00Z" "2024-01-11T06:00:00Z"
      ⟨19723 * 86400000000, some 0⟩ ⟨19733 * 86400000000 + 21600000000, some 0⟩
      (by decide) (by decide) rfl
    rw [h]
    decide
  · exact c5_duration_amended.2.1 "not a date" "2024-01-11" (Or.inl (by decide))

/-- Core of the recency test, on the effective date string: true exactly
when the string parses to a naive instant strictly inside the trailing
180-day window. -/
theorem isRecent_iff_aux (now : Int) (effective : String) :
    (if effective.data.isEmpty then false
      else
        match fromisoformat (pyReplaceZ effective.data) with
        | none => false
        | some dt =>
          match dt.offsetMinutes with
          | none => decide (dt.naiveMicros > now - 180 * 86400000000)
          | some _ => false) = true
    ↔ ∃ dt : PyDateTime, fromisoformat (pyReplaceZ effective.data) = some dt
        ∧ dt.offsetMinutes = none ∧ now - 180 * 86400000000 < dt.naiveMicros := by
  by_cases hemp : effective.data.isEmpty = true
  · have heq : effective = "" := by
      apply String.ext
      simpa [List.isEmpty_iff] using hemp
    subst heq
    simp [show fromisoformat (pyReplaceZ ("" : String).data) = none from rfl]
  · rw [if_neg hemp]
    cases hp : fromisoformat (pyReplaceZ effective.data) with
    | none => simp
    | some dt =>
      cases ho : dt.offsetMinutes with
      | none => simp [ho, gt_iff_lt]
      | some o => simp [ho]

/-- C8 (amended): a record reaches `recent_projects` exactly when its
effective date (`endDate` if that key is present, else `startDate` if
present, else the empty string) parses to a *naive* instant strictly after
run time − 180 days.  A date carrying a UTC offset (e.g. a trailing `Z`)
parses, but comparing the aware result with the naive run time raises
`TypeError`, swallowed to `False`, so such records are never recent. -/
theorem c8_recency_amended (now : Int) (endDate startDate : Option String) :
    isRecentProject now endDate startDate = true
    ↔ ∃ dt : PyDateTime,
        fromisoformat (pyReplaceZ (match endDate with
          | some e => e
          | none => startDate.getD "").data) = some dt
        ∧ dt.offsetMinutes = none ∧ now - 180 * 86400000000 < dt.naiveMicros := by
  cases endDate with
  | some e => exact isRecent_iff_aux now e
  | none => exact isRecent_iff_aux now (startDate.getD "")

/-- C8 (counterexample): an `endDate` ten days before the run time but
written with a trailing `Z` parses to an instant strictly inside the
180-day window — by the claim it must be included — yet the code excludes
it. -/
theorem c8_recency_counterexample :
    isRecentProject (daysFromCivil 2026 10 12 * 86400000000)
        (some "2026-10-02T00:00:00Z") none = false
      ∧ fromisoformat (pyReplaceZ "2026-10-02T00:00:00Z".data)
          = some ⟨daysFromCivil 2026 10 2 * 86400000000, some 0⟩
      ∧ daysFromCivil 2026 10 12 * 86400000000 - 180 * 86400000000
          < utcMicros ⟨daysFromCivil 2026 10 2 * 86400000000, some 0⟩ := by
  decide

/-- Incrementing a counter raises the sum of its values by one. -/
theorem countSum_incrCount (m : List (String × Nat)) (k : String) :
    countSum (incrCount m k) = countSum m + 1 := by
  induction m with
  | nil => rfl
  | cons p rest ih =>
    obtain ⟨k', v⟩ := p
    by_cases h : k' = k <;> simp [incrCount, h, countSum] at ih ⊢ <;> omega

/-- The `recent_projects` block leaves the counters and the total
unchanged. -/
theorem updateRecent_counts (now : Int) (a : Analytics) (e : Enriched) (a' : Analytics)
    (h : updateRecent now a e = Except.ok a') :
    a'.categories = a.categories ∧ a'.status_distribution = a.status_distribution
      ∧ a'.total_projects = a.total_projects := by
  cases hrec : isRecentProject now e.endDate e.startDate <;>
    cases hi : e.id <;> cases ht : e.title <;>
      simp [updateRecent, hrec, hi, ht] at h <;> subst h <;> simp

/-- The `featured_projects` block leaves the counters and the total
unchanged. -/
theorem updateFeatured_counts (a : Analytics) (e : Enriched) (a' : Analytics)
    (h : updateFeatured a e = Except.ok a') :
    a'.categories = a.categories ∧ a'.status_distribution = a.status_distribution
      ∧ a'.total_projects = a.total_projects := by
  cases hf : e.featured.getD false <;>
    cases hi : e.id <;> cases ht : e.title <;>
      simp [updateFeatured, hf, hi, ht] at h <;> subst h <;> simp

/-- A successful `_update_analytics` adds exactly one count to the
category counter and one to the status counter, and leaves the total
unchanged. -/
theorem updateAnalytics_counts (now : Int) (a : Analytics) (e : Enriched) (a' : Analytics)
    (h : updateAnalytics now a e = Except.ok a') :
    countSum a'.categories = countSum a.categories + 1
      ∧ countSum a'.status_distribution = countSum a.status_distribution + 1
      ∧ a'.total_projects = a.total_projects := by
  unfold updateAnalytics at h
  cases hr : updateRecent now (updateCounts a e) e with
  | error m => rw [hr] at h; simp [bind, Except.bind] at h
  | ok a₁ =>
    rw [hr] at h
    simp only [bind, Except.bind] at h
    have h₁ := updateRecent_counts now (updateCounts a e) e a₁ hr
    have h₂ := updateFeatured_counts a₁ e a' h
    have hc : (updateCounts a e).categories = incrCount a.categories (e.category.getD "uncategorized") := rfl
    have hs : (updateCounts a e).status_distribution = incrCount a.status_distribution (e.status.getD "unknown") := rfl
    have ht : (updateCounts a e).total_projects = a.total_projects := rfl
    refine ⟨?_, ?_, ?_⟩
    · rw [h₂.1, h₁.1, hc, countSum_incrCount]
    · rw [h₂.2.1, h₁.2.1, hs, countSum_incrCount]
    · rw [h₂.2.2, h₁.2.2, ht]

/-- A successful transform loop adds one count per processed record to
each of the two counters and preserves the total. -/
theorem transformGo_counts (now : Int) :
    ∀ (ps : List Project) (a : Analytics) (acc : List Enriched)
      (out : List Enriched × Analytics),
      transformGo now a acc ps = Except.ok out →
      countSum out.2.categories = countSum a.categories + ps.length
        ∧ countSum out.2.status_distribution = countSum a.status_distribution + ps.length
        ∧ out.2.total_projects = a.total_projects := by
  intro ps
  induction ps with
  | nil =>
    intro a acc out h
    simp [transformGo] at h
    subst h
    simp
  | cons p rest ih =>
    intro a acc out h
    unfold transformGo at h
    cases he : enrichProjectData p with
    | error m => rw [he] at h; simp [bind, Except.bind] at h
    | ok e =>
      rw [he] at h
      simp only [bind, Except.bind] at h
      cases hu : updateAnalytics now a e with
      | error m => rw [hu] at h; simp at h
      | ok a₁ =>
        rw [hu] at h
        have h₁ := updateAnalytics_counts now a e a₁ hu
        have h₂ := ih a₁ (e :: acc) out h
        simp only [List.length_cons]
        omega

/-- C3: whenever the transform completes, the sum of the category counts
and the sum of the status counts both equal `total_projects` — every
record contributes exactly one count to each mapping, and
`total_projects` is the input length. -/
theorem c3_distribution_sums (now : Int) (ps : List Project) (r : TransformResult)
    (h : transform now ps = Except.ok r) :
    countSum r.analytics.categories = r.analytics.total_projects
      ∧ countSum r.analytics.status_distribution = r.analytics.total_projects := by
  unfold transform at h
  cases hg : transformGo now (initAnalytics now ps.length) [] ps with
  | error m => rw [hg] at h; simp [bind, Except.bind] at h
  | ok out =>
    obtain ⟨ts, a⟩ := out
    rw [hg] at h
    simp only [bind, Except.bind, Except.ok.injEq] at h
    have hc := transformGo_counts now ps (initAnalytics now ps.length) [] (ts, a) hg
    simp only [initAnalytics, countSum, List.map_nil, List.sum_nil, Nat.zero_add] at hc
    rw [← h]
    exact ⟨by simp [countSum, hc.1, hc.2.1, hc.2.2], by simp [countSum, hc.1, hc.2.1, hc.2.2]⟩

/-- C3 witness: a one-record run has both counter sums equal to the total
of 1. -/
theorem c3_distribution_sums_witness :
    countSum ((transform 0 [{ title := some "A" }]).toOption.getD emptyResult).analytics.categories
        = ((transform 0 [{ title := some "A" }]).toOption.getD emptyResult).analytics.total_projects
      ∧ countSum ((transform 0 [{ title := some "A" }]).toOption.getD emptyResult).analytics.status_distribution
        = ((transform 0 [{ title := some "A" }]).toOption.getD emptyResult).analytics.total_projects := by
  cases h : transform 0 [{ title := some "A" }] with
  | error m =>
    exfalso
    have hok : runAborts (transform 0 [({ title := some "A" } : Project)]) = false := by decide
    rw [h] at hok
    simp [runAborts] at hok
  | ok r =>
    simpa [h, Except.toOption] using c3_distribution_sums 0 [{ title := some "A" }] r h

/-- Enrichment succeeds on any record carrying a `slug` or a `title`, and
copies the fields the aggregator reads. -/
theorem enrich_ok_fields (p : Project) (hp : p.slug.isSome ∨ p.title.isSome) :
    ∃ e, enrichProjectData p = Except.ok e
      ∧ e.id = p.id ∧ e.title = p.title ∧ e.featured = p.featured
      ∧ e.endDate = p.endDate ∧ e.startDate = p.startDate := by
  cases hs : p.slug with
  | some s => exact ⟨enrichCore p s, by simp [enrichProjectData, hs], rfl, rfl, rfl, rfl, rfl⟩
  | none =>
    cases ht : p.title with
    | some t =>
      exact ⟨enrichCore p (generateSlug t), by simp [enrichProjectData, hs, ht],
        rfl, ht, rfl, rfl, rfl⟩
    | none => simp [hs, ht] at hp

/-- `_update_analytics` succeeds whenever the enriched record carries
`id` and `title`. -/
theorem updateAnalytics_ok_of_keys (now : Int) (a : Analytics) (e : Enriched)
    (hi : e.id.isSome) (ht : e.title.isSome) :
    runAborts (updateAnalytics now a e) = false := by
  obtain ⟨i, hi⟩ := Option.isSome_iff_exists.mp hi
  obtain ⟨t, ht⟩ := Option.isSome_iff_exists.mp ht
  cases hrec : isRecentProject now e.endDate e.startDate <;>
    cases hf : e.featured.getD false <;>
      simp [updateAnalytics, updateRecent, updateFeatured, hrec, hf, hi, ht,
        bind, Except.bind, runAborts]

/-- `_update_analytics` raises `KeyError: id` when the record has no `id`
key and passes the recent test or the featured test. -/
theorem updateAnalytics_aborts_of_noid (now : Int) (a : Analytics) (e : Enriched)
    (hi : e.id = none)
    (h : isRecentProject now e.endDate e.startDate = true ∨ e.featured.getD false = true) :
    runAborts (updateAnalytics now a e) = true := by
  rcases h with h | h
  · simp [updateAnalytics, updateRecent, h, hi, bind, Except.bind, runAborts]
  · cases hrec : isRecentProject now e.endDate e.startDate with
    | true => simp [updateAnalytics, updateRecent, hrec, hi, bind, Except.bind, runAborts]
    | false =>
      simp [updateAnalytics, updateRecent, updateFeatured, hrec, h, hi,
        bind, Except.bind, runAborts]

/-- The transform loop completes when every record carries `id` and
`title`. -/
theorem transformGo_ok_of_keys (now : Int) :
    ∀ (ps : List Project) (a : Analytics) (acc : List Enriched),
      (∀ p ∈ ps, p.id.isSome ∧ p.title.isSome) →
      ∃ out, transformGo now a acc ps = Except.ok out := by
  intro ps
  induction ps with
  | nil => exact fun a acc _ => ⟨_, rfl⟩
  | cons p rest ih =>
    intro a acc hkeys
    obtain ⟨hid, htitle⟩ := hkeys p (List.mem_cons_self p rest)
    obtain ⟨e, he, heid, hetitle, -, -, -⟩ := enrich_ok_fields p (Or.inr htitle)
    have hupd := updateAnalytics_ok_of_keys now a e (heid ▸ hid) (hetitle ▸ htitle)
    cases hu : updateAnalytics now a e with
    | error m => rw [hu] at hupd; simp [runAborts] at hupd
    | ok a' =>
      obtain ⟨out, hout⟩ := ih a' (e :: acc) (fun q hq => hkeys q (List.mem_cons_of_mem p hq))
      exact ⟨out, by simp [transformGo, he, hu, bind, Except.bind, hout]⟩

/-- The transform loop aborts when some record has no `id` key yet passes
the recent or the featured test. -/
theorem transformGo_aborts_of_noid (now : Int) :
    ∀ (ps : List Project) (a : Analytics) (acc : List Enriched) (p : Project),
      p ∈ ps → p.id = none →
      (isRecentProject now p.endDate p.startDate = true ∨ p.featured.getD false = true) →
      runAborts (transformGo now a acc ps) = true := by
  intro ps
  induction ps with
  | nil => intro a acc p hp; exact absurd hp (List.not_mem_nil p)
  | cons q rest ih =>
    intro a acc p hp hid hrf
    rcases List.mem_cons.mp hp with rfl | hp'
    · by_cases hslug : p.slug.isSome ∨ p.title.isSome
      · obtain ⟨e, he, heid, -, hefeat, heend, hestart⟩ := enrich_ok_fields p hslug
        have habort : runAborts (updateAnalytics now a e) = true := by
          apply updateAnalytics_aborts_of_noid now a e (heid ▸ hid)
          rw [hefeat, heend, hestart]
          exact hrf
        cases hu : updateAnalytics now a e with
        | error m => simp [transformGo, he, hu, bind, Except.bind, runAborts]
        | ok a' => rw [hu] at habort; simp [runAborts] at habort
      · have hs : p.slug = none := by
          cases hval : p.slug
          · rfl
          · exact absurd (Or.inl (by simp [hval])) hslug
        have ht : p.title = none := by
          cases hval : p.title
          · rfl
          · exact absurd (Or.inr (by simp [hval])) hslug
        simp [transformGo, enrichProjectData, hs, ht, bind, Except.bind, runAborts]
    · cases he : enrichProjectData q with
      | error m => simp [transformGo, he, bind, Except.bind, runAborts]
      | ok e =>
        cases hu : updateAnalytics now a e with
        | error m => simp [transformGo, he, hu, bind, Except.bind, runAborts]
        | ok a' =>
          have := ih a' (e :: acc) p hp' hid hrf
          simp [transformGo, he, hu, bind, Except.bind, this]

/-- C9: the transform stage is total on records that carry `id` and
`title`; a record with neither `slug` nor `title` raises an uncaught
`KeyError` inside enrichment, and a record without `id` that passes the
recent or the featured test raises an uncaught `KeyError` inside the
aggregator — either aborts the entire run. -/
theorem c9_totality_and_key_errors :
    (∀ (now : Int) (ps : List Project),
        (∀ p ∈ ps, p.id.isSome ∧ p.title.isSome) →
        runAborts (transform now ps) = false)
    ∧ (∀ p : Project, p.title = none → p.slug = none →
        runAborts (enrichProjectData p) = true)
    ∧ (∀ (now : Int) (ps : List Project) (p : Project),
        p ∈ ps → p.id = none →
        (isRecentProject now p.endDate p.startDate = true ∨ p.featured.getD false = true) →
        runAborts (transform now ps) = true) := by
  refine ⟨?_, ?_, ?_⟩
  · intro now ps hkeys
    obtain ⟨out, hout⟩ := transformGo_ok_of_keys now ps (initAnalytics now ps.length) [] hkeys
    obtain ⟨ts, a⟩ := out
    simp [transform, hout, bind, Except.bind, runAborts]
  · intro p ht hs
    simp [enrichProjectData, hs, ht, runAborts]
  · intro now ps p hp hid hrf
    have h := transformGo_aborts_of_noid now ps (initAnalytics now ps.length) [] p hp hid hrf
    cases hg : transformGo now (initAnalytics now ps.length) [] ps with
    | error m => simp [transform, hg, bind, Except.bind, runAborts]
    | ok out => rw [hg] at h; simp [runAborts] at h

/-- C9 witness: a record with both keys processes cleanly; the empty
record aborts enrichment; a featured record without `id` aborts the run. -/
theorem c9_totality_witness :
    runAborts (transform 0 [{ id := some 1, title := some "A" }]) = false
      ∧ runAborts (enrichProjectData ({} : Project)) = true
      ∧ runAborts (transform 0 [{ title := some "B", featured := some true }]) = true := by
  refine ⟨c9_totality_and_key_errors.1 0 _ ?_,
    c9_totality_and_key_errors.2.1 {} rfl rfl,
    c9_totality_and_key_errors.2.2 0 _ { title := some "B", featured := some true }
      (List.mem_singleton.mpr rfl) rfl (Or.inr rfl)⟩
  intro p hp
  rw [List.mem_singleton] at hp
  subst hp
  exact ⟨rfl, rfl⟩

/-- `Char.ofNat` inverts `toNat` on valid code points. -/
theorem toNat_ofNat_valid {n : Nat} (h : n < 55296) : (Char.ofNat n).toNat = n := by
  have hv : n.isValidChar := Or.inl h
  simp [Char.ofNat, hv, Char.ofNatAux, Char.toNat, UInt32.toNat, BitVec.toNat_ofNatLt]

/-- Lower-casing is idempotent. -/
theorem pyLower_pyLower (c : Char) : pyLower (pyLower c) = pyLower c := by
  unfold pyLower
  split
  · next h =>
    rw [toNat_ofNat_valid (by omega)]
    rw [if_neg (by omega)]
  · rfl

/-- A non-collapsible character is not whitespace. -/
theorem not_space_of_not_collapse {c : Char} (h : isCollapseChar c = false) :
    isPySpace c = false := by
  unfold isCollapseChar at h
  cases hs : isPySpace c
  · rfl
  · rw [hs] at h
    simp at h

/-- `dropWhile` never leaves a satisfying character at the head. -/
theorem head_dropWhile_not (p : Char → Bool) :
    ∀ (l : List Char) (d : Char), (l.dropWhile p).head? = some d → p d = false := by
  intro l
  induction l with
  | nil => intro d h; simp at h
  | cons c rest ih =>
    intro d h
    by_cases hc : p c = true
    · rw [List.dropWhile_cons, if_pos hc] at h
      exact ih d h
    · rw [List.dropWhile_cons, if_neg hc] at h
      simp at h
      rw [← h]
      exact Bool.not_eq_true _ |>.mp hc

/-- `dropWhile` keeps a list whose head does not satisfy the predicate. -/
theorem dropWhile_eq_self_of_head (p : Char → Bool) (l : List Char)
    (h : ∀ d, l.head? = some d → p d = false) : l.dropWhile p = l := by
  cases l with
  | nil => rfl
  | cons c rest => rw [List.dropWhile_cons, if_neg (by simp [h c rfl])]

/-- `dropWhile` keeps a list none of whose characters satisfy the
predicate. -/
theorem dropWhile_eq_self_of_all (p : Char → Bool) (l : List Char)
    (h : ∀ c ∈ l, p c = false) : l.dropWhile p = l := by
  cases l with
  | nil => rfl
  | cons c rest =>
    refine dropWhile_eq_self_of_head p _ (fun d hd => ?_)
    simp at hd
    rw [← hd]
    exact h c (by simp)

/-- Characters produced by the collapse pass: a hyphen, or an input
character that is not collapsible. -/
theorem mem_collapseAux :
    ∀ (l : List Char) (b : Bool) (c : Char), c ∈ collapseAux b l →
      c = '-' ∨ (c ∈ l ∧ isCollapseChar c = false) := by
  intro l
  induction l with
  | nil => intro b c h; simp [collapseAux] at h
  | cons d rest ih =>
    intro b c h
    by_cases hd : isCollapseChar d = true
    · cases b with
      | true =>
        simp only [collapseAux, hd, if_true, if_pos] at h
        rcases ih true c h with h' | h'
        · exact Or.inl h'
        · exact Or.inr ⟨List.mem_cons_of_mem d h'.1, h'.2⟩
      | false =>
        simp only [collapseAux, hd, if_true, if_pos, if_false] at h
        rcases List.mem_cons.mp h with rfl | h'
        · exact Or.inl rfl
        · rcases ih true c h' with h'' | h''
          · exact Or.inl h''
          · exact Or.inr ⟨List.mem_cons_of_mem d h''.1, h''.2⟩
    · simp only [collapseAux, hd, if_neg, if_false] at h
      rcases List.mem_cons.mp h with rfl | h'
      · exact Or.inr ⟨List.mem_cons_self c rest, Bool.not_eq_true _ |>.mp hd⟩
      · rcases ih false c h' with h'' | h''
        · exact Or.inl h''
        · exact Or.inr ⟨List.mem_cons_of_mem d h''.1, h''.2⟩

/-- After skipping a run, the next emitted character is not collapsible. -/
theorem head_collapseAux_true :
    ∀ (l : List Char) (d : Char), (collapseAux true l).head? = some d →
      isCollapseChar d = false := by
  intro l
  induction l with
  | nil => intro d h; simp [collapseAux] at h
  | cons c rest ih =>
    intro d h
    by_cases hc : isCollapseChar c = true
    · simp only [collapseAux, hc, if_true] at h
      exact ih d h
    · simp [collapseAux, hc] at h
      rw [← h]
      exact Bool.not_eq_true _ |>.mp hc

/-- The collapse pass never emits two adjacent collapsible characters. -/
theorem chain_collapseAux :
    ∀ (l : List Char) (b : Bool),
      List.Chain' (fun a b => ¬(isCollapseChar a = true ∧ isCollapseChar b = true))
        (collapseAux b l) := by
  intro l
  induction l with
  | nil => intro b; simp [collapseAux]
  | cons c rest ih =>
    intro b
    by_cases hc : isCollapseChar c = true
    · cases b with
      | true =>
        simp only [collapseAux, hc, if_true]
        exact ih true
      | false =>
        have hgoal : collapseAux false (c :: rest) = '-' :: collapseAux true rest := by
          simp [collapseAux, hc]
        rw [hgoal, List.chain'_cons']
        refine ⟨fun y hy => ?_, ih true⟩
        rintro ⟨-, h2⟩
        rw [head_collapseAux_true rest y hy] at h2
        exact Bool.false_ne_true h2
    · have hgoal : collapseAux b (c :: rest) = c :: collapseAux false rest := by
        simp [collapseAux, hc]
      rw [hgoal, List.chain'_cons']
      refine ⟨fun y hy => ?_, ih false⟩
      rintro ⟨h1, -⟩
      exact hc h1

/-- Skipping state does not matter when the head is not collapsible. -/
theorem collapseAux_true_eq_false (l : List Char)
    (h : ∀ d, l.head? = some d → isCollapseChar d = false) :
    collapseAux true l = collapseAux false l := by
  cases l with
  | nil => rfl
  | cons c rest =>
    have hc := h c rfl
    simp [collapseAux, hc]

/-- The collapse pass is the identity on a list whose collapsible
characters are all single hyphens. -/
theorem collapseAux_eq_self :
    ∀ l : List Char,
      (∀ c ∈ l, isCollapseChar c = true → c = '-') →
      List.Chain' (fun a b => ¬(isCollapseChar a = true ∧ isCollapseChar b = true)) l →
      collapseAux false l = l := by
  intro l
  induction l with
  | nil => intro _ _; rfl
  | cons c rest ih =>
    intro hmem hchain
    by_cases hc : isCollapseChar c = true
    · have hcdash : c = '-' := hmem c (List.mem_cons_self c rest) hc
      have hrest : ∀ d, rest.head? = some d → isCollapseChar d = false := by
        intro d hd
        cases rest with
        | nil => simp at hd
        | cons e t =>
          have hed : e = d := by simpa using hd
          subst hed
          have hR := (List.chain'_cons'.mp hchain).1 e (by simp)
          cases hKd : isCollapseChar e
          · rfl
          · exact absurd ⟨hc, hKd⟩ hR
      have hgoal : collapseAux false (c :: rest) = '-' :: collapseAux true rest := by
        simp [collapseAux, hc]
      rw [hgoal, collapseAux_true_eq_false rest hrest,
        ih (fun x hx hK => hmem x (List.mem_cons_of_mem c hx) hK) (List.Chain'.tail hchain),
        hcdash]
    · have hgoal : collapseAux false (c :: rest) = c :: collapseAux false rest := by
        simp [collapseAux, hc]
      rw [hgoal,
        ih (fun x hx hK => hmem x (List.mem_cons_of_mem c hx) hK) (List.Chain'.tail hchain)]

/-- Stripping whitespace only removes characters. -/
theorem mem_pyStrip {c : Char} {l : List Char} (h : c ∈ pyStrip l) : c ∈ l := by
  unfold pyStrip dropLeadingSpace at h
  rw [List.mem_reverse] at h
  have h1 := (List.dropWhile_suffix _).subset h
  rw [List.mem_reverse] at h1
  exact (List.dropWhile_suffix _).subset h1

/-- Dropping a trailing run is taking a prefix. -/
theorem dropTrailing_isPrefixOf (p : Char → Bool) (y : List Char) :
    (y.reverse.dropWhile p).reverse <+: y := by
  have h : y.reverse.dropWhile p <:+ y.reverse := List.dropWhile_suffix p
  have h2 := List.reverse_prefix.mpr h
  rwa [List.reverse_reverse] at h2

/-- A nonempty prefix starts with the same character. -/
theorem head_of_isPrefixOf {x y : List Char} {d : Char} (hp : x <+: y)
    (h : x.head? = some d) : y.head? = some d := by
  obtain ⟨t, rfl⟩ := hp
  cases x with
  | nil => simp at h
  | cons a s => simpa using h

/-- The characters of a generated slug are lower-case-stable slug
characters: no whitespace, every collapsible one a hyphen, no two
collapsible ones adjacent, and no hyphen at either end. -/
theorem slugChars_props (l : List Char) :
    (∀ c ∈ slugChars l, pyLower c = c ∧ isSlugKept c = true ∧ isPySpace c = false
        ∧ (isCollapseChar c = true → c = '-'))
    ∧ List.Chain' (fun a b => ¬(isCollapseChar a = true ∧ isCollapseChar b = true))
        (slugChars l)
    ∧ (∀ d, (slugChars l).head? = some d → d ≠ '-')
    ∧ (∀ d, (slugChars l).getLast? = some d → d ≠ '-') := by
  have hout : slugChars l
      = (((collapseRuns ((pyStrip (l.map pyLower)).filter isSlugKept)).dropWhile
          (· = '-')).reverse.dropWhile (· = '-')).reverse := rfl
  refine ⟨?_, ?_, ?_, ?_⟩
  · intro c hc
    have hw : c ∈ (collapseRuns ((pyStrip (l.map pyLower)).filter isSlugKept)).dropWhile
        (· = '-') :=
      (dropTrailing_isPrefixOf _ _).subset (hout ▸ hc)
    have hz := (List.dropWhile_suffix _).subset hw
    rcases mem_collapseAux _ false c hz with rfl | ⟨hmid, hK⟩
    · exact ⟨by decide, by decide, by decide, fun _ => rfl⟩
    · obtain ⟨hstrip, hkept⟩ := List.mem_filter.mp hmid
      obtain ⟨c₀, -, hc₀⟩ := List.mem_map.mp (mem_pyStrip hstrip)
      refine ⟨?_, hkept, not_space_of_not_collapse hK, fun hKt => ?_⟩
      · rw [← hc₀]
        exact pyLower_pyLower c₀
      · rw [hKt] at hK
        exact absurd hK (by simp)
  · have h1 := chain_collapseAux ((pyStrip (l.map pyLower)).filter isSlugKept) false
    have h2 := List.Chain'.suffix h1 (List.dropWhile_suffix (fun x => decide (x = '-')))
    have h3 := List.Chain'.prefix h2 (dropTrailing_isPrefixOf (fun x => decide (x = '-')) _)
    exact hout ▸ h3
  · intro d hd
    rw [hout] at hd
    have hw := head_of_isPrefixOf (dropTrailing_isPrefixOf _ _) hd
    have := head_dropWhile_not _ _ _ hw
    simpa using this
  · intro d hd
    rw [hout, ← List.head?_reverse, List.reverse_reverse] at hd
    have := head_dropWhile_not _ _ _ hd
    simpa using this

/-- Slug generation is idempotent on character lists. -/
theorem slugChars_idem (l : List Char) : slugChars (slugChars l) = slugChars l := by
  obtain ⟨hmem, hchain, hhead, hlast⟩ := slugChars_props l
  have h1 : (slugChars l).map pyLower = slugChars l := by
    rw [List.map_congr_left (fun c hc => (hmem c hc).1)]
    exact List.map_id _
  have h2 : pyStrip (slugChars l) = slugChars l := by
    unfold pyStrip dropLeadingSpace
    rw [dropWhile_eq_self_of_all _ _ (fun c hc => (hmem c hc).2.2.1),
      dropWhile_eq_self_of_all _ _ (fun c hc => (hmem c (List.mem_reverse.mp hc)).2.2.1),
      List.reverse_reverse]
  have h3 : (slugChars l).filter isSlugKept = slugChars l :=
    List.filter_eq_self.mpr (fun c hc => (hmem c hc).2.1)
  have h4 : collapseRuns (slugChars l) = slugChars l :=
    collapseAux_eq_self _ (fun c hc => (hmem c hc).2.2.2) hchain
  have h5a : (slugChars l).dropWhile (fun x => decide (x = '-')) = slugChars l :=
    dropWhile_eq_self_of_head _ _ (fun d hd => by simpa using hhead d hd)
  have h5b : (slugChars l).reverse.dropWhile (fun x => decide (x = '-'))
      = (slugChars l).reverse :=
    dropWhile_eq_self_of_head _ _
      (fun d hd => by simpa using hlast d (by rwa [List.head?_reverse] at hd))
  have h5 : stripHyphens (slugChars l) = slugChars l := by
    unfold stripHyphens
    rw [h5a, h5b, List.reverse_reverse]
  have hdef : ∀ m : List Char,
      slugChars m = stripHyphens (collapseRuns ((pyStrip (m.map pyLower)).filter isSlugKept)) :=
    fun m => rfl
  rw [hdef (slugChars l), h1, h2, h3, h4, h5]

/-- C7: slug generation is idempotent — slugifying a slug returns it
unchanged. -/
theorem c7_slug_idempotent (title : String) :
    generateSlug (generateSlug title) = generateSlug title := by
  have hdata : ∀ s : String, (generateSlug s).data = slugChars s.data := fun s => rfl
  apply String.ext
  simp only [hdata]
  exact slugChars_idem title.data

/-- Characters are determined by their code points. -/
theorem charToNat_inj {a b : Char} (h : a.toNat = b.toNat) : a = b := by
  have h2 := congrArg Char.ofNat h
  rwa [Char.ofNat_toNat, Char.ofNat_toNat] at h2

/-- Code-point order is total. -/
theorem charListLe_total : ∀ a b : List Char, charListLe a b = true ∨ charListLe b a = true := by
  intro a
  induction a with
  | nil => intro b; exact Or.inl rfl
  | cons x xs ih =>
    intro b
    cases b with
    | nil => exact Or.inr rfl
    | cons y ys =>
      by_cases h1 : x.toNat < y.toNat
      · left; simp [charListLe, h1]
      · by_cases h2 : y.toNat < x.toNat
        · right; simp [charListLe, h2]
        · rcases ih ys with h | h
          · left; simp [charListLe, h1, h2, h]
          · right; simp [charListLe, h1, h2, h]

/-- Code-point order is transitive. -/
theorem charListLe_trans :
    ∀ a b c : List Char, charListLe a b = true → charListLe b c = true →
      charListLe a c = true := by
  intro a
  induction a with
  | nil => intro b c _ _; rfl
  | cons x xs ih =>
    intro b c hab hbc
    cases b with
    | nil => simp [charListLe] at hab
    | cons y ys =>
      cases c with
      | nil => simp [charListLe] at hbc
      | cons z zs =>
        by_cases h1 : x.toNat < y.toNat <;> by_cases h2 : y.toNat < x.toNat <;>
          by_cases h3 : y.toNat < z.toNat <;> by_cases h4 : z.toNat < y.toNat <;>
            simp [charListLe, h1, h2, h3, h4] at hab hbc ⊢ <;>
              first
                | omega
                | exact Or.inr ⟨by omega, ih ys zs hab hbc⟩

/-- Code-point order is antisymmetric. -/
theorem charListLe_antisymm :
    ∀ a b : List Char, charListLe a b = true → charListLe b a = true → a = b := by
  intro a
  induction a with
  | nil =>
    intro b hab _
    cases b with
    | nil => rfl
    | cons y ys => simp [charListLe] at *
  | cons x xs ih =>
    intro b hab hba
    cases b with
    | nil => simp [charListLe] at hab
    | cons y ys =>
      by_cases h1 : x.toNat < y.toNat <;> by_cases h2 : y.toNat < x.toNat <;>
        simp [charListLe, h1, h2] at hab hba
      · omega
      · rw [charToNat_inj (by omega : x.toNat = y.toNat), ih ys hab hba]

/-- The rendered entries carry the object's keys in order. -/
theorem keys_dumpsObj : ∀ kvs : JObj, (dumpsObj kvs).map Prod.fst = kvs.keys
  | .nil => rfl
  | .cons k v rest => by
    simp only [dumpsObj, List.map_cons, JObj.keys]
    rw [keys_dumpsObj rest]

/-- A key of an object has a value. -/
theorem find_eq_some_of_mem_keys :
    ∀ (kvs : JObj) (k : String), k ∈ kvs.keys → ∃ v, kvs.find k = some v
  | .nil, k => by simp [JObj.keys]
  | .cons k' v rest, k => by
    intro hk
    by_cases h : k' = k
    · exact ⟨v, by simp [JObj.find, h]⟩
    · simp only [JObj.keys, List.mem_cons] at hk
      rcases hk with rfl | hk
      · exact absurd rfl h
      · obtain ⟨w, hw⟩ := find_eq_some_of_mem_keys rest k hk
        exact ⟨w, by simp [JObj.find, h, hw]⟩

/-- Looking a key up among the rendered entries renders its value. -/
theorem lookupRendered_dumpsObj :
    ∀ (kvs : JObj) (k : String) (v : JVal),
      kvs.find k = some v → lookupRendered k (dumpsObj kvs) = dumpsV v
  | .nil, k, v => by simp [JObj.find]
  | .cons k' w rest, k, v => by
    intro h
    by_cases hk : k' = k
    · simp only [JObj.find, hk, if_true, if_pos, Option.some.injEq] at h
      subst h
      simp [dumpsObj, lookupRendered, hk]
    · simp only [JObj.find, hk, if_neg, if_false] at h
      simp only [dumpsObj, lookupRendered, hk, if_neg, if_false]
      exact lookupRendered_dumpsObj rest k v h

/-- Rendering arrays respects element-wise equal rendering. -/
theorem dumpsArr_congr :
    ∀ (xs ys : JArr), xs.toList.length = ys.toList.length →
      (∀ x y, (x, y) ∈ xs.toList.zip ys.toList → dumpsV x = dumpsV y) →
      dumpsArr xs = dumpsArr ys
  | .nil, .nil, _, _ => rfl
  | .nil, .cons y ys, h, _ => by simp [JArr.toList] at h
  | .cons x xs, .nil, h, _ => by simp [JArr.toList] at h
  | .cons x xs, .cons y ys, hlen, hmem => by
    simp only [JArr.toList, List.length_cons, Nat.add_right_cancel_iff] at hlen
    simp only [dumpsArr, List.cons.injEq]
    refine ⟨hmem x y (by simp [JArr.toList]), ?_⟩
    exact dumpsArr_congr xs ys hlen
      (fun a b hab => hmem a b (by simp [JArr.toList, List.mem_cons, hab]))

/-- Sorting the keys depends only on the key multiset. -/
theorem sortKeys_eq_of_perm {ks₁ ks₂ : List String} (h : ks₁.Perm ks₂) :
    sortKeys ks₁ = sortKeys ks₂ := by
  have hanti : IsAntisymm String keyLe :=
    ⟨fun a b h1 h2 => String.ext (charListLe_antisymm a.data b.data h1 h2)⟩
  have htot : IsTotal String keyLe := ⟨fun a b => charListLe_total a.data b.data⟩
  have htrans : IsTrans String keyLe := ⟨fun a b c => charListLe_trans a.data b.data c.data⟩
  exact @List.eq_of_perm_of_sorted String keyLe hanti _ _
    ((List.perm_insertionSort keyLe ks₁).trans
      (h.trans (List.perm_insertionSort keyLe ks₂).symm))
    (@List.sorted_insertionSort String keyLe _ htot htrans ks₁)
    (@List.sorted_insertionSort String keyLe _ htot htrans ks₂)

/-- `json.dumps(..., sort_keys=True)` renders key-value-equivalent trees
to the same text. -/
theorem dumpsV_congr {p q : JVal} (h : JEquiv p q) : dumpsV p = dumpsV q := by
  induction h with
  | refl v => rfl
  | arr xs ys hlen hmem ih =>
    simp only [dumpsV]
    rw [dumpsArr_congr xs ys hlen ih]
  | obj kvs₁ kvs₂ hn₁ hn₂ hperm hfind ih =>
    simp only [dumpsV]
    have hks : sortKeys ((dumpsObj kvs₁).map Prod.fst)
        = sortKeys ((dumpsObj kvs₂).map Prod.fst) := by
      rw [keys_dumpsObj, keys_dumpsObj]
      exact sortKeys_eq_of_perm hperm
    rw [hks]
    have hmap : (sortKeys ((dumpsObj kvs₂).map Prod.fst)).map
          (fun k => renderEntry k (dumpsObj kvs₁))
        = (sortKeys ((dumpsObj kvs₂).map Prod.fst)).map
          (fun k => renderEntry k (dumpsObj kvs₂)) := by
      apply List.map_congr_left
      intro k hk
      have hk₂ : k ∈ kvs₂.keys := by
        rw [keys_dumpsObj] at hk
        exact (List.perm_insertionSort keyLe kvs₂.keys).mem_iff.mp hk
      have hk₁ : k ∈ kvs₁.keys := hperm.mem_iff.mpr hk₂
      obtain ⟨v₁, hv₁⟩ := find_eq_some_of_mem_keys kvs₁ k hk₁
      obtain ⟨v₂, hv₂⟩ := find_eq_some_of_mem_keys kvs₂ k hk₂
      unfold renderEntry
      rw [lookupRendered_dumpsObj kvs₁ k v₁ hv₁, lookupRendered_dumpsObj kvs₂ k v₂ hv₂,
        ih k v₁ v₂ hv₁ hv₂]
    rw [hmap]

/-- C4: two records that are equal as key-value trees — the same keys
bound to the same values at every nesting level, irrespective of the order
object entries appear in — receive the same content hash; the hash is a
function of the serialized tree, hence deterministic across runs. -/
theorem c4_content_hash_key_order {p q : JVal} (h : JEquiv p q) :
    generateContentHash p = generateContentHash q := by
  unfold generateContentHash
  rw [dumpsV_congr h]

/-- C4 witness: two records with the same fields, with entry order
swapped both at the top level and inside the nested `content` object,
hash identically. -/
theorem c4_content_hash_witness :
    generateContentHash
        (.obj (.cons "content"
            (.obj (.cons "overview" (.str "x") (.cons "challenge" (.str "y") .nil)))
          (.cons "id" (.num 1) .nil)))
      = generateContentHash
        (.obj (.cons "id" (.num 1)
          (.cons "content"
            (.obj (.cons "challenge" (.str "y") (.cons "overview" (.str "x") .nil))) .nil))) := by
  apply c4_content_hash_key_order
  apply JEquiv.obj
  · decide
  · decide
  · decide
  · intro k v₁ v₂ h₁ h₂
    by_cases hc : "content" = k
    · subst hc
      simp [JObj.find] at h₁ h₂
      subst h₁
      subst h₂
      apply JEquiv.obj
      · decide
      · decide
      · decide
      · intro k' w₁ w₂ g₁ g₂
        by_cases ho : "overview" = k'
        · subst ho
          simp [JObj.find] at g₁ g₂
          subst g₁
          subst g₂
          exact JEquiv.refl _
        · by_cases hch : "challenge" = k'
          · subst hch
            simp [JObj.find] at g₁ g₂
            subst g₁
            subst g₂
            exact JEquiv.refl _
          · simp [JObj.find, ho, hch] at g₁
    · by_cases hi : "id" = k
      · subst hi
        simp [JObj.find, hc] at h₁ h₂
        subst h₁
        subst h₂
        exact JEquiv.refl _
      · simp [JObj.find, hc, hi] at h₁
